import Mathlib

/-!
# Verification of the mmskeleton training orchestrator (src/train.py)

A shallow embedding, in Lean 4, of the epoch-level training orchestrator
implemented by the `Processor` class of `train.py`:

* the learning-rate scheduler (`Processor.adjust_learning_rate`),
* the checkpoint reconciler (`Processor.load_model`),
* the checkpoint writer (the `save_model` branch of `Processor.train`),
* the timing accumulator (`Processor.record_time` / `Processor.split_time`
  and the per-epoch `timer` dictionary of `Processor.train`),
* the per-epoch orchestration of `Processor.start`,
* the score-record construction of `Processor.eval`.

Python floats are modelled as rationals (the properties at stake are exact
identities and coarse bounds, insensitive to rounding of the binary
representation); Python dicts holding model parameters are modelled as
association lists from parameter names to an abstract serialized tensor
value (an integer stands in for the opaque tensor payload — values are
never `None` in a real state dict, so `dict.pop(k, None) is not None`
coincides with key presence); file-system side effects are modelled as
explicit traces of file operations.
-/

/-- A serialized tensor value, as stored in a pickled state dict.  The
payload is opaque to the orchestrator, which only moves it around by key;
an integer stands in for it. -/
abbrev Tensor : Type := Int

/-! ## Learning-rate scheduler (`Processor.adjust_learning_rate`, train.py lines 114-122)

```python
def adjust_learning_rate(self, epoch):
    if self.arg.optimizer == 'SGD' or self.arg.optimizer == 'Adam':
        lr = self.arg.base_lr * (
            0.1**np.sum(epoch >= np.array(self.arg.step)))
        for param_group in self.optimizer.param_groups:
            param_group['lr'] = lr
        return lr
    else:
        raise ValueError()
```

`np.sum(epoch >= np.array(step))` counts the entries `s` of `step` with
`epoch >= s`.  The assignment into `param_groups` applies the returned
value; the value itself is the pure function modelled here.  The `else`
branch raises, modelled as `none`. -/

/-- Number of configured step boundaries already reached at `epoch`:
the value of `np.sum(epoch >= np.array(step))`. -/
def lrStepCount (step : List Int) (epoch : Int) : Nat :=
  step.countP (fun s => decide (epoch ≥ s))

/-- The learning-rate value `base_lr * 0.1 ** lrStepCount step epoch`. -/
def lrValue (base_lr : ℚ) (step : List Int) (epoch : Int) : ℚ :=
  base_lr * (1 / 10 : ℚ) ^ lrStepCount step epoch

/-- `Processor.adjust_learning_rate`: returns the learning rate for
`epoch`, or `none` (the raised `ValueError`) for an unsupported
optimizer. -/
def adjust_learning_rate (optimizer : String) (base_lr : ℚ) (step : List Int)
    (epoch : Int) : Option ℚ :=
  if optimizer = "SGD" ∨ optimizer = "Adam" then
    some (lrValue base_lr step epoch)
  else
    none

theorem lrStepCount_mono (step : List Int) {e f : Int} (h : e ≤ f) :
    lrStepCount step e ≤ lrStepCount step f := by
  unfold lrStepCount
  refine List.countP_mono_left ?_
  intro s _ hs
  simp only [decide_eq_true_eq] at hs ⊢
  exact le_trans hs h

theorem lrValue_antitone {base_lr : ℚ} (hb : 0 ≤ base_lr) (step : List Int)
    {e f : Int} (h : e ≤ f) : lrValue base_lr step f ≤ lrValue base_lr step e := by
  unfold lrValue
  refine mul_le_mul_of_nonneg_left ?_ hb
  refine pow_le_pow_of_le_one (by norm_num) (by norm_num) ?_
  exact lrStepCount_mono step h

/-- **C1.** For every epoch `e`, the learning rate computed by
`adjust_learning_rate` (for a supported optimizer) equals
`base_lr * 0.1 ^ c`, where `c` is the number of configured step boundaries
`≤ e`; consequently, for `0 ≤ base_lr`, the learning rate is monotonically
non-increasing in the epoch.  The computation is the pure function
`lrValue` of `(base_lr, epoch, step)`. -/
theorem adjust_learning_rate_correct (opt : String) (base_lr : ℚ)
    (step : List Int) (e f : Int)
    (hopt : opt = "SGD" ∨ opt = "Adam") (hb : 0 ≤ base_lr) (hef : e ≤ f) :
    adjust_learning_rate opt base_lr step e =
      some (base_lr * (1 / 10 : ℚ) ^ (step.filter (fun s => decide (s ≤ e))).length) ∧
    lrValue base_lr step f ≤ lrValue base_lr step e := by
  constructor
  · unfold adjust_learning_rate
    rw [if_pos hopt]
    unfold lrValue lrStepCount
    rw [List.countP_eq_length_filter]
  · exact lrValue_antitone hb step hef

/-- Witness for C1 at a concrete input: optimizer `SGD`,
`base_lr = 1/100`, `step = [20, 40, 60]`, epochs `25 ≤ 45`. -/
theorem adjust_learning_rate_correct_witness :
    adjust_learning_rate "SGD" (1 / 100) [20, 40, 60] 25 =
      some ((1 / 100 : ℚ) * (1 / 10 : ℚ) ^
        (([20, 40, 60] : List Int).filter (fun s => decide (s ≤ (25 : Int)))).length) ∧
    lrValue (1 / 100) [20, 40, 60] 45 ≤ lrValue (1 / 100) [20, 40, 60] 25 :=
  adjust_learning_rate_correct "SGD" (1 / 100) [20, 40, 60] 25 45
    (Or.inl rfl) (by norm_num) (by norm_num)

/-! ## Checkpoint reconciler (`Processor.load_model`, train.py lines 55-87)

```python
if self.arg.weights:
    with open(self.arg.weights, 'r') as f:
        weights = pickle.load(f)

    for w in self.arg.ignore_weights:
        if weights.pop(w, None) is not None:
            print('Sucessfully Remove Weights: {}.'.format(w))
        else:
            print('Can Not Remove Weights: {}.'.format(w))

    try:
        self.model.load_state_dict(weights)
    except:
        state = self.model.state_dict()
        diff = list(set(state.keys()).difference(set(weights.keys())))
        print('Can not find these weights:')
        for d in diff:
            print('  ' + d)
        state.update(weights)
        self.model.load_state_dict(state)
```

A state dict is a Python dict; we model it as an association list (first
entry wins on lookup; real dicts have no duplicate keys, carried as a
`Nodup` hypothesis where a theorem needs it). -/

/-- A pickled parameter mapping: parameter name to serialized tensor. -/
abbrev StateDict := List (String × Tensor)

/-- The key set of a state dict (`d.keys()` in the source). -/
def dictKeys (d : StateDict) : List String := d.map Prod.fst

/-- `dict.pop(w, None)` run for each `w` of `ignore_weights`, in order:
returns the remaining dict together with, per ignored name in order, the
result of the `is not None` presence test that the source prints
(`Sucessfully Remove` / `Can Not Remove`). -/
def popIgnored : StateDict → List String → StateDict × List (String × Bool)
  | d, [] => (d, [])
  | d, w :: ws =>
    let present := (List.lookup w d).isSome
    let rest := popIgnored (d.filter fun p => p.1 != w) ws
    (rest.1, (w, present) :: rest.2)

/-- One entry of `state` after `state.update(weights)`: the value is
replaced when `weights` binds the same key. -/
def overlayEntry (weights : StateDict) (p : String × Tensor) : String × Tensor :=
  match List.lookup p.1 weights with
  | some v => (p.1, v)
  | none => p

/-- `state.update(weights)`: every key of `weights` overwrites or extends
`state`; all other keys of `state` keep their value. -/
def dictUpdate (state weights : StateDict) : StateDict :=
  state.map (overlayEntry weights) ++
    weights.filter (fun p => (List.lookup p.1 state).isNone)

/-- Whether two state dicts bind exactly the same key set. -/
def sameKeys (a b : StateDict) : Bool :=
  (dictKeys a).all (fun k => (dictKeys b).contains k) &&
  (dictKeys b).all (fun k => (dictKeys a).contains k)

/-- The model layer's strict `load_state_dict` (the PyTorch collaborator,
out of scope per the spec): accepts the mapping iff its key set matches
the model's parameter key set exactly, raising otherwise — the behavior
the source's `try/except` structure relies on. `none` models the raised
exception. -/
def load_state_dict (current incoming : StateDict) : Option StateDict :=
  if sameKeys current incoming then some incoming else none

/-- The `try/except` reconciliation of `load_model`: on a key mismatch the
fallback reads the current state, reports the set difference
`keys(state) - keys(weights)` (one warning line per missing key, printed
before anything else happens), and then calls
`self.model.load_state_dict(state)` on `state.update(weights)` — a second
strict load, outside any `try` (train.py line 87), whose raise is
uncaught and aborts the run.  Returns the outcome of that final load
(`none` = the run aborts) together with the warnings emitted before it. -/
def reconcile (current weights : StateDict) : Option StateDict × List String :=
  match load_state_dict current weights with
  | some s => (some s, [])
  | none =>
    let diff := (dictKeys current).filter (fun k => !((dictKeys weights).contains k))
    let state := dictUpdate current weights
    (load_state_dict current state, diff)

/-- `Processor.load_model`'s weight-loading branch: pop the ignored
weights (with their presence reports), then reconcile.  Returns the
outcome of the final load, the per-ignored-name presence reports, and the
missing-key warnings. -/
def load_model (current snapshot : StateDict) (ignore_weights : List String) :
    Option StateDict × List (String × Bool) × List String :=
  let popped := popIgnored snapshot ignore_weights
  let r := reconcile current popped.1
  (r.1, popped.2, r.2)

theorem mem_dictKeys_iff {k : String} {d : StateDict} :
    k ∈ dictKeys d ↔ (List.lookup k d).isSome := by
  induction d with
  | nil => simp [dictKeys]
  | cons p t ih =>
    rcases p with ⟨a, b⟩
    by_cases h : k = a
    · subst h
      simp [dictKeys, List.lookup_cons]
    · simp only [dictKeys, List.map_cons, List.mem_cons, List.lookup_cons]
      have hb : (k == a) = false := by
        simp [h]
      simp only [dictKeys] at ih
      simp [hb, h, ih]

theorem lookup_append_sd (l₁ l₂ : StateDict) (k : String) :
    List.lookup k (l₁ ++ l₂) =
      match List.lookup k l₁ with
      | some v => some v
      | none => List.lookup k l₂ := by
  induction l₁ with
  | nil => simp
  | cons p t ih =>
    rcases p with ⟨a, b⟩
    by_cases h : k = a
    · subst h
      simp [List.lookup_cons]
    · have hb : (k == a) = false := by
        simp [h]
      simp [List.lookup_cons, hb, ih]

theorem lookup_filter_key (P : String → Bool) (d : StateDict) (k : String) :
    List.lookup k (d.filter (fun p => P p.1)) =
      if P k then List.lookup k d else none := by
  induction d with
  | nil => simp
  | cons p t ih =>
    rcases p with ⟨a, b⟩
    by_cases h : k = a
    · subst h
      by_cases hp : P k
      · simp [List.filter_cons, hp, List.lookup_cons, ih]
      · simp only [Bool.not_eq_true] at hp
        simp [List.filter_cons, hp, ih]
    · have hb : (k == a) = false := by
        simp [h]
      by_cases hp : P a
      · simp [List.filter_cons, hp, List.lookup_cons, hb, ih]
      · simp only [Bool.not_eq_true] at hp
        simp [List.filter_cons, hp, ih, List.lookup_cons, hb]

theorem lookup_map_overlay (s w : StateDict) (k : String) :
    List.lookup k (s.map (overlayEntry w)) =
      (List.lookup k s).map (fun u =>
        match List.lookup k w with
        | some v => v
        | none => u) := by
  induction s with
  | nil => simp
  | cons p t ih =>
    rcases p with ⟨a, b⟩
    by_cases h : k = a
    · subst h
      rcases hw : List.lookup k w with _ | v <;>
        simp [overlayEntry, List.lookup_cons, hw]
    · have hb : (k == a) = false := by
        simp [h]
      rcases hw : List.lookup a w with _ | v <;>
        simp [overlayEntry, List.lookup_cons, hb, hw, ih]

theorem lookup_dictUpdate (s w : StateDict) (k : String) :
    List.lookup k (dictUpdate s w) =
      match List.lookup k w with
      | some v => some v
      | none => List.lookup k s := by
  unfold dictUpdate
  rw [lookup_append_sd, lookup_map_overlay,
    lookup_filter_key (fun key => (List.lookup key s).isNone)]
  rcases hs : List.lookup k s with _ | u <;>
    rcases hw : List.lookup k w with _ | v <;>
      simp [hs, hw]

theorem sameKeys_eq_false_of_missing {a b : StateDict} {k : String}
    (hk : k ∈ dictKeys a) (hnk : k ∉ dictKeys b) : sameKeys a b = false := by
  cases hall : (dictKeys a).all (fun x => (dictKeys b).contains x) with
  | false =>
    unfold sameKeys
    rw [hall, Bool.false_and]
  | true =>
    exfalso
    rw [List.all_eq_true] at hall
    exact hnk (List.elem_iff.mp (hall k hk))

theorem sameKeys_eq_false_of_extra {a b : StateDict} {k : String}
    (hk : k ∈ dictKeys b) (hnk : k ∉ dictKeys a) : sameKeys a b = false := by
  cases hall : (dictKeys b).all (fun x => (dictKeys a).contains x) with
  | false =>
    unfold sameKeys
    rw [hall, Bool.and_false]
  | true =>
    exfalso
    rw [List.all_eq_true] at hall
    exact hnk (List.elem_iff.mp (hall k hk))

theorem mem_dictKeys_dictUpdate {s w : StateDict} {k : String} :
    k ∈ dictKeys (dictUpdate s w) ↔ k ∈ dictKeys w ∨ k ∈ dictKeys s := by
  rw [mem_dictKeys_iff, mem_dictKeys_iff, mem_dictKeys_iff, lookup_dictUpdate]
  cases hw : List.lookup k w <;> simp [hw]

theorem sameKeys_dictUpdate_of_subset {current weights : StateDict}
    (hsub : ∀ k ∈ dictKeys weights, k ∈ dictKeys current) :
    sameKeys current (dictUpdate current weights) = true := by
  unfold sameKeys
  rw [Bool.and_eq_true]
  constructor <;> rw [List.all_eq_true] <;> intro k hk
  · exact List.elem_iff.mpr (mem_dictKeys_dictUpdate.mpr (Or.inr hk))
  · rcases mem_dictKeys_dictUpdate.mp hk with h | h
    · exact List.elem_iff.mpr (hsub k h)
    · exact List.elem_iff.mpr h

/-- **C3, counterexample.** A snapshot missing the key `k` (present in
the current model) that also carries the extra key `extra` does abort the
run: the first strict load fails, `state.update(weights)` inserts `extra`
into the merged state, and the second, uncaught `load_state_dict(state)`
at train.py line 87 rejects the unknown key — so reconciliation of a
snapshot missing a present key is not abort-free. -/
theorem reconcile_missing_key_aborts_on_extra :
    "k" ∈ dictKeys [("x", (1 : Tensor)), ("k", 2)] ∧
    "k" ∉ dictKeys [("x", (5 : Tensor)), ("extra", 7)] ∧
    (reconcile [("x", (1 : Tensor)), ("k", 2)] [("x", 5), ("extra", 7)]).1 = none := by
  decide

/-- **C3, amended.** Reconciling a snapshot that is missing a key `K`
present in the current model does not abort the run provided every key of
the snapshot occurs in the current model (no extra keys — otherwise the
uncaught second strict load at train.py line 87 raises): the final load
succeeds on the merged state, the current model\'s value for `K` is left
untouched, and the missing-key warning list references `K` exactly
once. -/
theorem reconcile_missing_key_no_extra (current weights : StateDict) (K : String)
    (hnd : (dictKeys current).Nodup) (hK : K ∈ dictKeys current)
    (hKw : K ∉ dictKeys weights)
    (hsub : ∀ k ∈ dictKeys weights, k ∈ dictKeys current) :
    (reconcile current weights).1 = some (dictUpdate current weights) ∧
    List.lookup K (dictUpdate current weights) = List.lookup K current ∧
    (reconcile current weights).2.count K = 1 := by
  have hsk : sameKeys current weights = false := sameKeys_eq_false_of_missing hK hKw
  have hsk2 : sameKeys current (dictUpdate current weights) = true :=
    sameKeys_dictUpdate_of_subset hsub
  have hw : List.lookup K weights = none := by
    cases hlw : List.lookup K weights with
    | none => rfl
    | some v =>
      exact absurd (mem_dictKeys_iff.mpr (by simp [hlw])) hKw
  have hc : ((dictKeys weights).contains K) = false := by
    cases hcc : (dictKeys weights).contains K with
    | false => rfl
    | true => exact absurd (List.elem_iff.mp hcc) hKw
  refine ⟨?_, ?_, ?_⟩
  · simp [reconcile, load_state_dict, hsk, hsk2]
  · rw [lookup_dictUpdate, hw]
  · simp only [reconcile, load_state_dict, hsk, Bool.false_eq_true, if_false]
    have hp : (!((dictKeys weights).contains K)) = true := by rw [hc]; rfl
    rw [@List.count_filter String _ _
      (fun k => !((dictKeys weights).contains k)) K (dictKeys current) hp]
    exact List.count_eq_one_of_mem hnd hK

/-- Witness for the amended C3: current model with keys `x, k`, snapshot
binding only `x`; the final load succeeds, the value of `k` survives and
one warning names `k`. -/
theorem reconcile_missing_key_no_extra_witness :
    (reconcile [("x", (1 : Tensor)), ("k", 2)] [("x", 5)]).1 =
      some (dictUpdate [("x", (1 : Tensor)), ("k", 2)] [("x", 5)]) ∧
    List.lookup "k" (dictUpdate [("x", (1 : Tensor)), ("k", 2)] [("x", 5)]) =
      List.lookup "k" [("x", (1 : Tensor)), ("k", 2)] ∧
    (reconcile [("x", (1 : Tensor)), ("k", 2)] [("x", 5)]).2.count "k" = 1 :=
  reconcile_missing_key_no_extra [("x", 1), ("k", 2)] [("x", 5)] "k"
    (by decide) (by decide) (by decide) (by decide)

/-- **C4, counterexample.** Loading a snapshot with the extra key `extra`
absent from the current model does not succeed: the first strict load
fails, the fallback\'s `state.update(weights)` inserts `extra` into the
merged state, and the second, uncaught `load_state_dict(state)` at
train.py line 87 rejects the unknown key, aborting the run. -/
theorem reconcile_extra_key_rejected :
    "extra" ∈ dictKeys [("x", (5 : Tensor)), ("extra", 7)] ∧
    "extra" ∉ dictKeys [("x", (1 : Tensor))] ∧
    (reconcile [("x", (1 : Tensor))] [("x", 5), ("extra", 7)]).1 = none := by
  decide

/-- **C4, amended.** Reconciling a snapshot holding an extra key `K`
absent from the current model aborts the run: the merged state
`state.update(weights)` still contains `K` and overlays every shared key
with the snapshot\'s value, but the final strict `load_state_dict(state)`
(train.py line 87, outside any `try`) rejects the unknown key, so the
outcome is the uncaught raise — the extra key is not accepted. -/
theorem reconcile_extra_key_aborts (current weights : StateDict) (K : String)
    (hKw : K ∈ dictKeys weights) (hKc : K ∉ dictKeys current) :
    (reconcile current weights).1 = none ∧
    K ∈ dictKeys (dictUpdate current weights) ∧
    (∀ k, k ∈ dictKeys current → k ∈ dictKeys weights →
      List.lookup k (dictUpdate current weights) = List.lookup k weights) := by
  have hsk : sameKeys current weights = false := sameKeys_eq_false_of_extra hKw hKc
  have hKst : K ∈ dictKeys (dictUpdate current weights) :=
    mem_dictKeys_dictUpdate.mpr (Or.inl hKw)
  have hsk2 : sameKeys current (dictUpdate current weights) = false :=
    sameKeys_eq_false_of_extra hKst hKc
  refine ⟨?_, hKst, ?_⟩
  · simp [reconcile, load_state_dict, hsk, hsk2]
  · intro k _ hkw
    obtain ⟨v, hv⟩ : ∃ v, List.lookup k weights = some v := by
      have := mem_dictKeys_iff.mp hkw
      cases hlw : List.lookup k weights with
      | none => rw [hlw] at this; exact absurd this (by simp)
      | some v => exact ⟨v, rfl⟩
    rw [lookup_dictUpdate, hv]

/-- Witness for the amended C4: snapshot with extra key `extra` and
shared key `x`; the run aborts, while the merged state kept `extra` and
overlaid `x` with the snapshot\'s value. -/
theorem reconcile_extra_key_aborts_witness :
    (reconcile [("x", (1 : Tensor))] [("x", 5), ("extra", 7)]).1 = none ∧
    "extra" ∈ dictKeys (dictUpdate [("x", (1 : Tensor))] [("x", 5), ("extra", 7)]) ∧
    (∀ k, k ∈ dictKeys [("x", (1 : Tensor))] →
      k ∈ dictKeys [("x", (5 : Tensor)), ("extra", 7)] →
      List.lookup k (dictUpdate [("x", (1 : Tensor))] [("x", 5), ("extra", 7)]) =
        List.lookup k [("x", (5 : Tensor)), ("extra", 7)]) :=
  reconcile_extra_key_aborts [("x", 1)] [("x", 5), ("extra", 7)] "extra"
    (by decide) (by decide)

theorem lookup_filter_ne (d : StateDict) (w K : String) :
    List.lookup K (d.filter fun p => p.1 != w) =
      if K != w then List.lookup K d else none :=
  lookup_filter_key (fun x => x != w) d K

theorem popIgnored_map_fst (d : StateDict) (ws : List String) :
    ((popIgnored d ws).2).map Prod.fst = ws := by
  induction ws generalizing d with
  | nil => simp [popIgnored]
  | cons w ws ih => simp [popIgnored, ih]

theorem popIgnored_lookup_none (d : StateDict) (ws : List String) (K : String)
    (h : List.lookup K d = none) : List.lookup K (popIgnored d ws).1 = none := by
  induction ws generalizing d with
  | nil => simpa [popIgnored] using h
  | cons w ws ih =>
    simp only [popIgnored]
    apply ih
    rw [lookup_filter_ne]
    split <;> simp [h]

theorem popIgnored_removed (d : StateDict) (ws : List String) :
    ∀ K ∈ ws, List.lookup K (popIgnored d ws).1 = none := by
  induction ws generalizing d with
  | nil => simp
  | cons w ws ih =>
    intro K hK
    simp only [popIgnored]
    rcases List.mem_cons.mp hK with h | h
    · subst h
      apply popIgnored_lookup_none
      rw [lookup_filter_ne]
      simp
    · exact ih _ K h

theorem popIgnored_reports (d : StateDict) (ws : List String) (hnd : ws.Nodup) :
    ∀ p ∈ (popIgnored d ws).2, p.2 = (List.lookup p.1 d).isSome := by
  induction ws generalizing d with
  | nil => simp [popIgnored]
  | cons w ws ih =>
    intro p hp
    simp only [popIgnored, List.mem_cons] at hp
    rcases hp with h | h
    · subst h; rfl
    · have hw : w ∉ ws := (List.nodup_cons.mp hnd).1
      have hnd2 : ws.Nodup := (List.nodup_cons.mp hnd).2
      have h1 : p.1 ∈ ws := by
        rw [← popIgnored_map_fst (d.filter fun q => q.1 != w) ws]
        exact List.mem_map_of_mem Prod.fst h
      have hne : p.1 ≠ w := fun he => hw (he ▸ h1)
      rw [ih (d.filter fun q => q.1 != w) hnd2 p h, lookup_filter_ne]
      simp [hne]

/-- **C5.** For every key `K` of `ignore_weights`, the pop loop removes
`K` from the incoming snapshot before the overlay (whether or not `K` was
bound), and it emits one non-fatal report per configured key, in order,
stating (for a duplicate-free ignore list) exactly whether the key was
present in the snapshot. -/
theorem popIgnored_correct (d : StateDict) (ignore : List String) :
    (∀ K ∈ ignore, List.lookup K (popIgnored d ignore).1 = none) ∧
    ((popIgnored d ignore).2.map Prod.fst = ignore) ∧
    (ignore.Nodup →
      ∀ p ∈ (popIgnored d ignore).2, p.2 = (List.lookup p.1 d).isSome) :=
  ⟨popIgnored_removed d ignore, popIgnored_map_fst d ignore,
    fun h => popIgnored_reports d ignore h⟩

/-- Witness for C5: snapshot binding `a, b`, ignore list `[a, c]`; `a` is
removed and reported present, `c` reported absent. -/
theorem popIgnored_correct_witness :
    List.lookup "a" (popIgnored [("a", (1 : Tensor)), ("b", 2)] ["a", "c"]).1 = none ∧
    ((popIgnored [("a", (1 : Tensor)), ("b", 2)] ["a", "c"]).2.map Prod.fst = ["a", "c"]) ∧
    (∀ p ∈ (popIgnored [("a", (1 : Tensor)), ("b", 2)] ["a", "c"]).2,
      p.2 = (List.lookup p.1 [("a", (1 : Tensor)), ("b", 2)]).isSome) :=
  ⟨(popIgnored_correct [("a", 1), ("b", 2)] ["a", "c"]).1 "a" (by decide),
    (popIgnored_correct [("a", 1), ("b", 2)] ["a", "c"]).2.1,
    (popIgnored_correct [("a", 1), ("b", 2)] ["a", "c"]).2.2 (by decide)⟩

/-! ## Orchestrator (`Processor.start`, train.py lines 228-247)

```python
def start(self):
    if self.arg.phase == 'train':
        for epoch in range(self.arg.start_epoch, self.arg.num_epoch):
            save_model = ((epoch + 1) % self.arg.save_interval == 0) or (
                epoch + 1 == self.arg.num_epoch)
            eval_model = ((epoch + 1) % self.arg.eval_interval == 0) or (
                epoch + 1 == self.arg.num_epoch)

            self.train(epoch, save_model=save_model)

            if eval_model:
                self.eval(epoch, save_score=True, loader_name=['test'])

    elif self.arg.phase == 'test':
        epoch = self.arg.start_epoch
        self.eval(epoch, save_score=True, loader_name=['test'])
```

The run is modelled as the sequence of observable actions it performs:
training steps, checkpoint writes (the `save_model=True` branch at the
end of `Processor.train`), and evaluation passes (one per entry of
`loader_name`, with their `save_score` flag). -/

/-- An observable orchestrator action. -/
inductive Event
  | trainStep (epoch : Nat)
  | checkpointSave (epoch : Nat)
  | evalPass (epoch : Nat) (split : String) (saveScore : Bool)
  deriving DecidableEq, Repr

/-- `Processor.eval(epoch, save_score, loader_name)`: one evaluation pass
per named split, in order. -/
def evalEvents (epoch : Nat) (saveScore : Bool) (loaderName : List String) :
    List Event :=
  loaderName.map (fun ln => Event.evalPass epoch ln saveScore)

/-- The actions of one iteration of the train-phase epoch loop: the
training step always runs; the checkpoint write happens inside
`Processor.train` when `save_model` holds; the evaluation pass (with
score persistence) follows when `eval_model` holds. -/
def epochEvents (numEpoch saveInterval evalInterval e : Nat) : List Event :=
  [Event.trainStep e] ++
    (if (e + 1) % saveInterval == 0 || (e + 1) == numEpoch
      then [Event.checkpointSave e] else []) ++
    (if (e + 1) % evalInterval == 0 || (e + 1) == numEpoch
      then evalEvents e true ["test"] else [])

/-- `Processor.start`: the full action sequence of a run. -/
def startEvents (phase : String) (startEpoch numEpoch saveInterval evalInterval : Nat) :
    List Event :=
  if phase = "train" then
    (List.range' startEpoch (numEpoch - startEpoch)).flatMap
      (epochEvents numEpoch saveInterval evalInterval)
  else if phase = "test" then
    evalEvents startEpoch true ["test"]
  else []

theorem trainStep_mem_epochEvents {n si ei a e : Nat} :
    Event.trainStep e ∈ epochEvents n si ei a ↔ e = a := by
  by_cases hs : ((a + 1) % si == 0 || (a + 1) == n) = true <;>
    by_cases hv : ((a + 1) % ei == 0 || (a + 1) == n) = true <;>
      simp [epochEvents, evalEvents, hs, hv]

theorem checkpointSave_mem_epochEvents {n si ei a e : Nat} :
    Event.checkpointSave e ∈ epochEvents n si ei a ↔
      e = a ∧ ((a + 1) % si == 0 || (a + 1) == n) = true := by
  by_cases hs : ((a + 1) % si == 0 || (a + 1) == n) = true <;>
    by_cases hv : ((a + 1) % ei == 0 || (a + 1) == n) = true <;>
      simp [epochEvents, evalEvents, hs, hv]

theorem evalPass_mem_epochEvents {n si ei a e : Nat} :
    Event.evalPass e "test" true ∈ epochEvents n si ei a ↔
      e = a ∧ ((a + 1) % ei == 0 || (a + 1) == n) = true := by
  by_cases hs : ((a + 1) % si == 0 || (a + 1) == n) = true <;>
    by_cases hv : ((a + 1) % ei == 0 || (a + 1) == n) = true <;>
      simp [epochEvents, evalEvents, hs, hv]

/-- **C2.** In the train phase, for every epoch `e` of
`[start_epoch, num_epoch)` (and positive intervals, as the Python `%`
requires): the training step runs, a checkpoint is written iff
`(e+1) % save_interval = 0` or `e+1 = num_epoch`, and an evaluation pass
with score persistence runs iff `(e+1) % eval_interval = 0` or
`e+1 = num_epoch`. -/
theorem start_train_phase (s n si ei e : Nat)
    (hsi : 0 < si) (hei : 0 < ei) (hse : s ≤ e) (hen : e < n) :
    Event.trainStep e ∈ startEvents "train" s n si ei ∧
    (Event.checkpointSave e ∈ startEvents "train" s n si ei ↔
      ((e + 1) % si = 0 ∨ e + 1 = n)) ∧
    (Event.evalPass e "test" true ∈ startEvents "train" s n si ei ↔
      ((e + 1) % ei = 0 ∨ e + 1 = n)) := by
  have he : e ∈ List.range' s (n - s) := by
    rw [List.mem_range'_1]
    omega
  have hu : startEvents "train" s n si ei =
      (List.range' s (n - s)).flatMap (epochEvents n si ei) := by
    unfold startEvents
    rw [if_pos rfl]
  refine ⟨?_, ?_, ?_⟩
  · rw [hu, List.mem_flatMap]
    exact ⟨e, he, trainStep_mem_epochEvents.mpr rfl⟩
  · rw [hu, List.mem_flatMap]
    constructor
    · rintro ⟨a, _, ha⟩
      rcases checkpointSave_mem_epochEvents.mp ha with ⟨rfl, hcond⟩
      simpa using hcond
    · intro hcond
      refine ⟨e, he, checkpointSave_mem_epochEvents.mpr ⟨rfl, ?_⟩⟩
      simpa using hcond
  · rw [hu, List.mem_flatMap]
    constructor
    · rintro ⟨a, _, ha⟩
      rcases evalPass_mem_epochEvents.mp ha with ⟨rfl, hcond⟩
      simpa using hcond
    · intro hcond
      refine ⟨e, he, evalPass_mem_epochEvents.mpr ⟨rfl, ?_⟩⟩
      simpa using hcond

/-- Witness for C2 at the scenario `start_epoch = 0`, `num_epoch = 3`,
`save_interval = 2`, `eval_interval = 1`, epoch `e = 1`: the step runs,
`(1+1) % 2 = 0` forces a checkpoint, and `(1+1) % 1 = 0` forces an
evaluation pass. -/
theorem start_train_phase_witness :
    Event.trainStep 1 ∈ startEvents "train" 0 3 2 1 ∧
    (Event.checkpointSave 1 ∈ startEvents "train" 0 3 2 1 ↔
      ((1 + 1) % 2 = 0 ∨ 1 + 1 = 3)) ∧
    (Event.evalPass 1 "test" true ∈ startEvents "train" 0 3 2 1 ↔
      ((1 + 1) % 1 = 0 ∨ 1 + 1 = 3)) :=
  start_train_phase 0 3 2 1 1 (by decide) (by decide) (by decide) (by decide)

/-- **C7.** In the test phase the run performs exactly one action: a
single evaluation pass over the `test` split at `start_epoch` with score
persistence — in particular no training step runs and no checkpoint is
written, and the run terminates after that single pass. -/
theorem start_test_phase (s n si ei : Nat) :
    startEvents "test" s n si ei = [Event.evalPass s "test" true] ∧
    (∀ e, Event.trainStep e ∉ startEvents "test" s n si ei) ∧
    (∀ e, Event.checkpointSave e ∉ startEvents "test" s n si ei) := by
  have h : startEvents "test" s n si ei = [Event.evalPass s "test" true] := by
    unfold startEvents evalEvents
    rw [if_neg (by decide), if_pos rfl]
    rfl
  refine ⟨h, ?_, ?_⟩ <;> intro e <;> rw [h] <;> simp

/-! ## Checkpoint writer (`Processor.train`, train.py lines 187-193)

```python
if save_model:
    model_path = '{}/epoch{}_model.pkl'.format(self.arg.work_dir,
                                               epoch + 1)
    with open(model_path, 'w') as f:
        pickle.dump(self.model.state_dict(), f)
```

The save is modelled as its trace of file-system operations.  The
source opens the target path itself for writing and dumps into it; there
is no temporary file and no rename. -/

/-- A file-system operation performed by the checkpoint writer. -/
inductive FsOp
  | openWrite (path : String)
  | writeDump (path : String)
  | closeFile (path : String)
  | rename (src dst : String)
  deriving DecidableEq, Repr

/-- Whether an operation is a rename. -/
def FsOp.isRename : FsOp → Bool
  | .rename _ _ => true
  | _ => false

/-- `'{}/epoch{}_model.pkl'.format(work_dir, epoch + 1)`. -/
def modelPath (workDir : String) (epoch : Nat) : String :=
  workDir ++ "/epoch" ++ toString (epoch + 1) ++ "_model.pkl"

/-- The file-system trace of the `save_model` branch: open the target
path for writing, dump the snapshot, close (the `with` block). -/
def saveModelOps (workDir : String) (epoch : Nat) : List FsOp :=
  [FsOp.openWrite (modelPath workDir epoch),
    FsOp.writeDump (modelPath workDir epoch),
    FsOp.closeFile (modelPath workDir epoch)]

/-- The write-to-temp-then-rename discipline claimed by the spec: the
target path is never opened for writing directly, and some distinct
temporary file is renamed onto the target. -/
def AtomicTempRename (ops : List FsOp) (target : String) : Prop :=
  (∀ p, FsOp.openWrite p ∈ ops → p ≠ target) ∧
  (∃ tmp, tmp ≠ target ∧ FsOp.rename tmp target ∈ ops)

/-- **C6, counterexample.** The checkpoint save of epoch `0` in working
directory `work` does not follow the write-to-temp-then-rename
discipline: its trace contains no rename at all (and it opens the target
path directly). -/
theorem save_model_not_atomic :
    ¬ AtomicTempRename (saveModelOps "work" 0) (modelPath "work" 0) := by
  intro h
  rcases h.2 with ⟨tmp, _, hmem⟩
  simp [saveModelOps] at hmem

/-- **C6, amended.** The checkpoint save writes the parameter snapshot
directly to the target path `work_dir/epoch(e+1)_model.pkl` — its trace
opens the target for writing and performs no rename — so an interrupted
save can leave a partially written file at the target path. -/
theorem save_model_writes_directly (workDir : String) (epoch : Nat) :
    FsOp.openWrite (modelPath workDir epoch) ∈ saveModelOps workDir epoch ∧
    (saveModelOps workDir epoch).all (fun op => !op.isRename) = true := by
  constructor
  · simp [saveModelOps]
  · rfl

/-! ## Timing accumulator (`Processor.record_time` / `Processor.split_time`,
train.py lines 137-144, and the `timer` buckets of `Processor.train`)

```python
def record_time(self):
    self.cur_time = time.time()
    return self.cur_time

def split_time(self):
    split_time = time.time() - self.cur_time
    self.record_time()
    return split_time
```

`split_time` is a state transformer on `cur_time`: given the current
clock reading `now` and the stored `cur_time`, it returns the raw
difference and stores `now`.  Bucket accumulation is
`timer[k] += self.split_time()`. -/

/-- `Processor.split_time` at clock reading `now` with stored `cur_time`:
(returned duration, new `cur_time`). -/
def split_time (now curTime : ℚ) : ℚ × ℚ := (now - curTime, now)

/-- `timer[k] += dur`. -/
def addSplit (bucket dur : ℚ) : ℚ := bucket + dur

/-- **C8, counterexample.** With stored `cur_time = 5` and a clock that
reports the non-increasing reading `3`, the recorded per-split duration
is not clamped to zero, and adding it sends the epsilon-seeded bucket
negative: a negative duration is added to the timing bucket. -/
theorem split_time_not_clamped :
    (3 : ℚ) ≤ 5 ∧ (split_time 3 5).1 ≠ 0 ∧
      addSplit (1 / 1000) (split_time 3 5).1 < 0 := by
  norm_num [split_time, addSplit]

/-- **C8, amended.** The per-split duration is the raw clock difference
`now - cur_time` (and `cur_time` is re-recorded to `now`); it is added to
the bucket unmodified, and it is negative whenever the clock reports
strictly decreasing time. -/
theorem split_time_raw_difference (now cur : ℚ) :
    (split_time now cur).1 = now - cur ∧
    (split_time now cur).2 = now ∧
    (∀ b, addSplit b (split_time now cur).1 = b + (now - cur)) ∧
    (now < cur → (split_time now cur).1 < 0) := by
  refine ⟨rfl, rfl, fun b => rfl, fun h => ?_⟩
  simp only [split_time]
  linarith

/-- Witness for the amended C8 at `now = 3`, `cur_time = 7`. -/
theorem split_time_raw_difference_witness :
    (3 : ℚ) < 7 ∧ (split_time 3 7).1 = 3 - 7 ∧ (split_time 3 7).1 < 0 :=
  ⟨by norm_num, (split_time_raw_difference 3 7).1,
    (split_time_raw_difference 3 7).2.2.2 (by norm_num)⟩

/-! ## Per-epoch timing report (`Processor.train`, train.py lines 154, 183)

```python
timer = dict(dataloader=0.001, model=0.001, statistics=0.001)
...
proportion = { k:'{:02d}%'.format(int(round(v*100/sum(timer.values()))))
               for k, v in timer.items()}
```

Python 2's `round` rounds half away from zero; on the nonnegative
arguments arising here this is `⌊x + 1/2⌋`, i.e. Mathlib's `round`. -/

/-- The three timing buckets, each seeded with `0.001`. -/
structure Timer where
  dataloader : ℚ
  model : ℚ
  statistics : ℚ

/-- `timer = dict(dataloader=0.001, model=0.001, statistics=0.001)`. -/
def Timer.init : Timer := ⟨1 / 1000, 1 / 1000, 1 / 1000⟩

/-- `sum(timer.values())`. -/
def Timer.total (t : Timer) : ℚ := t.dataloader + t.model + t.statistics

/-- `int(round(v*100/sum(timer.values())))`. -/
def proportionPct (v total : ℚ) : ℤ := round (v * 100 / total)

/-- The sum of the three reported (rounded) bucket percentages. -/
def Timer.pctSum (t : Timer) : ℤ :=
  proportionPct t.dataloader t.total + proportionPct t.model t.total +
    proportionPct t.statistics t.total

/-- **C9.** For every timer state with positive buckets (in particular
the epsilon-only seeds left by a run over an empty dataset), the
reported per-bucket percentages, each rounded to the nearest integer,
sum to 100 up to an error of at most the number of buckets (3). -/
theorem timer_pct_sum_bound (t : Timer)
    (h1 : 0 < t.dataloader) (h2 : 0 < t.model) (h3 : 0 < t.statistics) :
    |t.pctSum - 100| ≤ 3 := by
  have hT : 0 < t.total := by
    unfold Timer.total
    linarith
  have hTne : t.total ≠ 0 := ne_of_gt hT
  set x1 := t.dataloader * 100 / t.total with hx1
  set x2 := t.model * 100 / t.total with hx2
  set x3 := t.statistics * 100 / t.total with hx3
  have hsum : x1 + x2 + x3 = 100 := by
    rw [hx1, hx2, hx3]
    field_simp
    unfold Timer.total
    ring
  have hb1 : |(round x1 : ℚ) - x1| ≤ 1 / 2 := by
    rw [abs_sub_comm]
    exact abs_sub_round x1
  have hb2 : |(round x2 : ℚ) - x2| ≤ 1 / 2 := by
    rw [abs_sub_comm]
    exact abs_sub_round x2
  have hb3 : |(round x3 : ℚ) - x3| ≤ 1 / 2 := by
    rw [abs_sub_comm]
    exact abs_sub_round x3
  have hdec : ((t.pctSum : ℚ)) - 100 =
      ((round x1 : ℚ) - x1) + ((round x2 : ℚ) - x2) + ((round x3 : ℚ) - x3) := by
    have hps : ((t.pctSum : ℚ)) = (round x1 : ℚ) + (round x2 : ℚ) + (round x3 : ℚ) := by
      unfold Timer.pctSum proportionPct
      push_cast
      rw [hx1, hx2, hx3]
    rw [hps, ← hsum]
    ring
  have key : |((t.pctSum : ℚ)) - 100| ≤ 3 / 2 := by
    rw [hdec]
    calc |((round x1 : ℚ) - x1) + ((round x2 : ℚ) - x2) + ((round x3 : ℚ) - x3)|
        ≤ |(round x1 : ℚ) - x1| + |(round x2 : ℚ) - x2| + |(round x3 : ℚ) - x3| :=
          abs_add_three _ _ _
      _ ≤ 3 / 2 := by linarith
  have keyq : |((t.pctSum - 100 : ℤ) : ℚ)| ≤ ((3 : ℤ) : ℚ) := by
    push_cast
    calc |((t.pctSum : ℚ)) - 100| ≤ 3 / 2 := key
      _ ≤ 3 := by norm_num
  rw [← Int.cast_abs] at keyq
  exact_mod_cast keyq

/-- Witness for C9 at the epsilon-only seed state (an empty dataset):
each bucket reports 33%, the sum is 99, within 3 of 100. -/
theorem timer_pct_sum_bound_witness :
    (0 : ℚ) < Timer.init.dataloader ∧ |Timer.init.pctSum - 100| ≤ 3 :=
  ⟨by norm_num [Timer.init],
    timer_pct_sum_bound Timer.init (by norm_num [Timer.init])
      (by norm_num [Timer.init]) (by norm_num [Timer.init])⟩

/-! ## Score-record construction (`Processor.eval`, train.py lines 214-216)

```python
score = np.concatenate(score_frag)
score_dict = dict(
    zip(self.data_loader[ln].dataset.sample_name, score))
```

`zip` silently truncates to the shorter of the two sequences; `dict` over
the zipped pairs (sample identifiers are unique within a split by the
feeder contract) is the pairing itself, modelled as the list of zipped
pairs. -/

/-- One per-sample raw output row of `output.data.cpu().numpy()`. -/
abbrev ScoreRow := List ℚ

/-- `np.concatenate(score_frag)`: the per-batch blocks of rows,
concatenated along the sample axis. -/
def concatScores (score_frag : List (List ScoreRow)) : List ScoreRow :=
  score_frag.flatten

/-- `dict(zip(sample_name, score))`: the score record of one evaluation
pass. -/
def score_dict (sample_name : List String) (score_frag : List (List ScoreRow)) :
    List (String × ScoreRow) :=
  sample_name.zip (concatScores score_frag)

/-- **C10.** The score record pairs the dataset's sample-name sequence
with the concatenated score rows positionally, and when the two sequences
differ in length it silently contains exactly
`min (number of names) (number of scored samples)` entries — surplus
samples or names are dropped with no error and no warning. -/
theorem score_dict_truncates (sample_name : List String)
    (score_frag : List (List ScoreRow)) :
    (score_dict sample_name score_frag).length =
      min sample_name.length (concatScores score_frag).length ∧
    (∀ i (h1 : i < sample_name.length)
        (h2 : i < (concatScores score_frag).length),
      (score_dict sample_name score_frag)[i]? =
        some (sample_name[i], (concatScores score_frag)[i])) := by
  constructor
  · simp [score_dict, List.length_zip]
  · intro i h1 h2
    refine List.getElem?_zip_eq_some.mpr ⟨?_, ?_⟩
    · exact List.getElem?_eq_getElem h1
    · exact List.getElem?_eq_getElem h2

/-- Witness for C10: two sample names but a single scored row; the record
has `min 2 1 = 1` entry, pairing the first name with the first row, and
the second sample name is silently dropped. -/
theorem score_dict_truncates_witness :
    (score_dict ["a", "b"] [[[(1 : ℚ)]]]).length =
      min (["a", "b"] : List String).length (concatScores [[[(1 : ℚ)]]]).length ∧
    (score_dict ["a", "b"] [[[(1 : ℚ)]]])[0]? = some ("a", [(1 : ℚ)]) :=
  ⟨(score_dict_truncates ["a", "b"] [[[(1 : ℚ)]]]).1,
    (score_dict_truncates ["a", "b"] [[[(1 : ℚ)]]]).2 0 (by norm_num)
      (by norm_num [concatScores])⟩
